import Mathlib

/-!
Verification of `mc-playtime-calc.c` against its natural-language design
specification.

The C program is shallowly embedded:

* a `gzFile` read stream becomes `Gz`: the list of remaining bytes plus the
  zlib `past`-end-of-file flag queried by `gzeof`;
* `gzgetc`, `gzungetc`, `gzeof` are modelled directly on that state;
* `parseLine`, `parseFile`, `isLogGzFile` are translated line by line from
  the source; the two `while` loops of `parseFile` are expressed with an
  explicit fuel bounded by the stream length (each loop iteration either
  consumes a byte or sets the end-of-file flag, proved below);
* the filesystem side (`chdir`, `opendir`/`readdir`, `stat`, `gzopen`) is
  an oracle record `World`; the process working directory is an explicit
  component list threaded through `parseDirectory`,
  `parseDotMinecraftDirectory` and `autoParse`; `chdir_s` termination of
  the process on failure is modelled by an `Option` result (`none` =
  process exited).

Bytes are `Nat` (the C code reads characters as `int`), `EOF` is `none`.
-/

/-- Bytes of a Lean string literal, for writing concrete C strings/streams. -/
def bytes (s : String) : List Nat := s.toList.map Char.toNat

/-- C `isdigit` on a byte (ASCII `'0'`..`'9'`, i.e. 48..57). -/
def isdigit (c : Nat) : Bool := 48 ≤ c && c ≤ 57

/-- State of an opened `gzFile`: remaining bytes and the zlib past-EOF flag
(set when a read request could not be satisfied, reported by `gzeof`). -/
structure Gz where
  buf : List Nat
  past : Bool
deriving DecidableEq, Repr

/-- `gzgetc`: pop the next byte, or report EOF and set the past-EOF flag. -/
def gzgetc (g : Gz) : Option Nat × Gz :=
  match g.buf with
  | [] => (none, ⟨[], true⟩)
  | c :: rest => (some c, ⟨rest, g.past⟩)

/-- `gzungetc`: push a byte back onto the stream; zlib clears the past-EOF
flag. -/
def gzungetc (c : Nat) (g : Gz) : Gz := ⟨c :: g.buf, false⟩

/-- `gzeof`: the past-EOF flag. -/
def gzeof (g : Gz) : Bool := g.past

/-- The template `"[hh:mm:ss]"` of `parseLine` (`'['`=91, `'h'`=104,
`':'`=58, `'m'`=109, `'s'`=115, `']'`=93). -/
def tag : List Nat := bytes "[hh:mm:ss]"

/-- The `for` loop of `parseLine` (`mc-playtime-calc.c` lines 34-52) plus the
final timestamp computation (line 53): match the remaining template
characters, accumulating the hour/minute/second fields; `none` is the
C `return 1`. -/
def matchTag : List Nat → Nat → Nat → Nat → Gz → Option Nat × Gz
  | [], hour, minute, second, g => (some ((hour * 60 + minute) * 60 + second), g)
  | t :: ts, hour, minute, second, g =>
    match gzgetc g with
    | (none, g') => (none, g')
    | (some ch, g') =>
      if t = 104 ∨ t = 109 ∨ t = 115 then
        if isdigit ch then
          if t = 104 then matchTag ts (hour * 10 + (ch - 48)) minute second g'
          else if t = 109 then matchTag ts hour (minute * 10 + (ch - 48)) second g'
          else matchTag ts hour minute (second * 10 + (ch - 48)) g'
        else (none, g')
      else if ch = t then matchTag ts hour minute second g'
      else (none, g')

/-- Line 54 of the source, with `gzgetc` inlined into the list recursion:
`while ((ch = gzgetc(gf)) != EOF && ch != '\r' && ch != '\n');`
(`'\r'`=13, `'\n'`=10). -/
def skipToEolAux : List Nat → Bool → Gz
  | [], _ => ⟨[], true⟩
  | c :: rest, p => if c = 13 ∨ c = 10 then ⟨rest, p⟩ else skipToEolAux rest p

def skipToEol (g : Gz) : Gz := skipToEolAux g.buf g.past

/-- Lines 55-57 of the source:
`while ((ch = gzgetc(gf)) != EOF && (ch == '\r' || ch == '\n'));`
followed by `if (ch != EOF) gzungetc(ch, gf);`. -/
def skipEolsAux : List Nat → Bool → Gz
  | [], _ => ⟨[], true⟩
  | c :: rest, p => if c = 13 ∨ c = 10 then skipEolsAux rest p else gzungetc c ⟨rest, p⟩

def skipEols (g : Gz) : Gz := skipEolsAux g.buf g.past

/-- `parseLine` (lines 29-59): match the template; only on success run the
two line-skipping loops. `none` is the C return value 1, `some t` is
return value 0 with `*time = t`. -/
def parseLine (g : Gz) : Option Nat × Gz :=
  match matchTag tag 0 0 0 g with
  | (none, g') => (none, g')
  | (some t, g') => (some t, skipEols (skipToEol g'))

/-- The first `while` loop of `parseFile` (lines 72-74), with explicit fuel:
`while (parseLine(gf, &start) == 1) if (gzeof(gf) == 1) return 2;`.
`none` is the `return 2` exit; each failed iteration either consumes at
least one byte or sets the past-EOF flag, so fuel `buf.length + 1` is never
exhausted (`findFirstGo_adequate` below). -/
def findFirstGo : Nat → Gz → Option (Nat × Gz)
  | 0, _ => none
  | fuel + 1, g =>
    match parseLine g with
    | (some t, g') => some (t, g')
    | (none, g') => if gzeof g' then none else findFirstGo fuel g'

def findFirst (g : Gz) : Option (Nat × Gz) := findFirstGo (g.buf.length + 1) g

/-- The second `while` loop of `parseFile` (lines 76-78), with explicit fuel:
`while (gzeof(gf) == 0) if (parseLine(gf, &tmp) == 0) end = tmp;`. -/
def scanRestGo : Nat → Nat → Gz → Nat × Gz
  | 0, e, g => (e, g)
  | fuel + 1, e, g =>
    if gzeof g then (e, g)
    else
      match parseLine g with
      | (some t, g') => scanRestGo fuel t g'
      | (none, g') => scanRestGo fuel e g'

def scanRest (e : Nat) (g : Gz) : Nat × Gz := scanRestGo (g.buf.length + 2) e g

/-- Result of `parseFile`: the C return value (0 success, 1 system failure,
2 parsing failure), the output `*time`, and whether `gzclose` was reached
on the taken path. -/
structure FileResult where
  ret : Int
  time : Int
  closed : Bool
deriving DecidableEq, Repr

/-- `parseFile` (lines 66-83). The argument is the result of
`gzopen(path, "r")`: `none` when the open failed. Note the `return 2`
at line 74 is taken without reaching `gzclose` (line 79). -/
def parseFile (file : Option Gz) : FileResult :=
  match file with
  | none => ⟨1, 0, true⟩
  | some gf =>
    match findFirst gf with
    | none => ⟨2, 0, false⟩
    | some (start, g1) =>
      let (endv, _) := scanRest start g1
      ⟨0, (endv : Int) - (start : Int), true⟩

/-- Successful `parseLine` results of the second loop in `parseFile`. -/
def scanRestListGo : Nat → Gz → List Nat
  | 0, _ => []
  | fuel + 1, g =>
    if gzeof g then []
    else
      match parseLine g with
      | (some t, g') => t :: scanRestListGo fuel g'
      | (none, g') => scanRestListGo fuel g'

def scanRestList (g : Gz) : List Nat := scanRestListGo (g.buf.length + 2) g

/-- All successful `parseLine` results of a `parseFile` run on stream `g`:
the first loop runs `parseLine` until one success or EOF-after-failure,
the second until `gzeof`. -/
def scanAllGo : Nat → Gz → List Nat
  | 0, _ => []
  | fuel + 1, g =>
    match parseLine g with
    | (some t, g') => t :: scanRestListGo fuel g'
    | (none, g') => if gzeof g' then [] else scanAllGo fuel g'

def scanAll (g : Gz) : List Nat := scanAllGo (g.buf.length + 1) g

/-- Termination measure of the `parseFile` loops. -/
def gzMeasure (g : Gz) : Nat := g.buf.length + (if g.past then 0 else 1)

def fileC2a : Gz := ⟨bytes "[00:00:10] joined the game\nnot a timestamp\n???\n[00:01:00] left the game\n", false⟩

def fileC2b : Gz := ⟨bytes "[00:00:10] the only valid line\n", false⟩

/-- Pure matcher: does the byte list begin with the `[hh:mm:ss]` template
slots given by `ts`? (Same slot tests as `matchTag`, without accumulators
or stream state.) -/
def specMatch : List Nat → List Nat → Bool
  | [], _ => true
  | _ :: _, [] => false
  | t :: ts, c :: cs =>
    if t = 104 ∨ t = 109 ∨ t = 115 then
      if isdigit c then specMatch ts cs else false
    else if c = t then specMatch ts cs else false

/-- The rendered template `[HH:MM:SS]` for field values `h`, `m`, `s`
(each two decimal digits). -/
def tmplBytes (h m s : Nat) : List Nat :=
  [91, 48 + h / 10, 48 + h % 10, 58, 48 + m / 10, 48 + m % 10, 58,
   48 + s / 10, 48 + s % 10, 93]

/-- The filename template `"nnnn-nn-nn-n.log.gz"` (`'n'`=110, `'-'`=45,
`'.'`=46, `'l'`=108, `'o'`=111, `'g'`=103, `'z'`=122). -/
def fmt : List Nat := bytes "nnnn-nn-nn-n.log.gz"

/-- The loop of `isLogGzFile`: `name` is the byte list of the C string (a
missing index reads the terminator, byte 0). When the format string is
exhausted the code still compares `name[i]` against `'\0'` before
returning 1, so trailing characters are rejected. -/
def matchFmt : List Nat → List Nat → Bool
  | [], name => name.isEmpty
  | f :: fs, name =>
    if f = 110 then
      if isdigit (name.headD 0) then matchFmt fs name.tail else false
    else
      if name.headD 0 = f then matchFmt fs name.tail else false

def isLogGzFile (name : List Nat) : Bool := matchFmt fmt name

/-- Result of `stat`: the kind of filesystem node. -/
inductive FType
  | dir
  | reg
  | other
deriving DecidableEq, Repr

/-- Filesystem/process oracle. The process working directory `cwd` is an
absolute path as a list of name components (each a C-string byte list);
`chd` resolves a `chdir` call from a given cwd (`none` = failure), `lst`
an `opendir "."`/`readdir` listing of a cwd (`none` = `opendir` failure),
`opn` a `gzopen` of a file name relative to a cwd (`none` = open failure),
`sta` a `stat` relative to a cwd (`none` = failure). -/
structure World where
  cwd : List (List Nat)
  chd : List (List Nat) → List Nat → Option (List (List Nat))
  lst : List (List Nat) → Option (List (List Nat))
  opn : List (List Nat) → List Nat → Option Gz
  sta : List (List Nat) → List Nat → Option FType

/-- `chdir_s` (lines 114-121): `chdir` or terminate the process
(`none` = the modelled `exit(1)`). -/
def chdirS (path : List Nat) (w : World) : Option World :=
  match w.chd w.cwd path with
  | some c => some { w with cwd := c }
  | none => none

/-- One iteration of the `readdir` loop of `parseDirectory`
(lines 140-145): the accumulator is `(sum, file)`. -/
def dirStep (w : World) (acc : Int × Int) (name : List Nat) : Int × Int :=
  if isLogGzFile name then
    let r := parseFile (w.opn w.cwd name)
    if r.ret = 0 then (acc.1 + r.time, acc.2 + 1) else acc
  else acc

/-- `parseDirectory` after the optional `chdir(path)` (lines 134-152):
list the current directory, fold the archived logs, try `latest.log`
unconditionally, then `chdir_s(origin)` when `origin` is non-null.
On the `opendir` failure path (line 136) the function returns -1 without
restoring `origin`. -/
def parseDirectoryBody (origin : Option (List Nat)) (w : World) :
    Option (Int × Int × World) :=
  match w.lst w.cwd with
  | none => some (-1, 0, w)
  | some entries =>
    let acc := entries.foldl (dirStep w) (0, 0)
    let rl := parseFile (w.opn w.cwd (bytes "latest.log"))
    let acc2 := if rl.ret = 0 then (acc.1 + rl.time, acc.2 + 1) else acc
    match origin with
    | none => some (acc2.2, acc2.1, w)
    | some o =>
      match chdirS o w with
      | some w2 => some (acc2.2, acc2.1, w2)
      | none => none

/-- `parseDirectory` (lines 130-153): `some (ret, time, world)` with `ret`
the C return value (parsed-file count, or -1 on failure); `none` models
process termination inside `chdir_s`. -/
def parseDirectory (path origin : Option (List Nat)) (w : World) :
    Option (Int × Int × World) :=
  match path with
  | some p =>
    match w.chd w.cwd p with
    | none => some (-1, 0, w)
    | some c => parseDirectoryBody origin { w with cwd := c }
  | none => parseDirectoryBody origin w

/-- The `VERSIONS_END` tail of `parseDotMinecraftDirectory`
(lines 188-192): set `*time`, restore `origin` if non-null, return. -/
def versionsEnd (origin : Option (List Nat)) (sum file : Int) (w : World) :
    Option (Int × Int × World) :=
  match origin with
  | none => some (file, sum, w)
  | some o =>
    match chdirS o w with
    | some w2 => some (file, sum, w2)
    | none => none

/-- The `DIR_END` tail (lines 186-187): `chdir_s("..")`, then fall through
to `VERSIONS_END`. -/
def dirEnd (origin : Option (List Nat)) (sum file : Int) (w : World) :
    Option (Int × Int × World) :=
  match chdirS (bytes "..") w with
  | none => none
  | some w2 => versionsEnd origin sum file w2

/-- The per-version `readdir` loop of `parseDotMinecraftDirectory`
(lines 175-184): skip `.`/`..`, enter the version directory (failure
skips it), aggregate its `logs`, `chdir_s("..")` back. -/
def dotMcLoop : List (List Nat) → Int → Int → World → Option (Int × Int × World)
  | [], sum, file, w => some (sum, file, w)
  | e :: es, sum, file, w =>
    if e = bytes "." ∨ e = bytes ".." then dotMcLoop es sum file w
    else
      match w.chd w.cwd e with
      | none => dotMcLoop es sum file w
      | some c =>
        match parseDirectory (some (bytes "logs")) (some (bytes "..")) { w with cwd := c } with
        | none => none
        | some (ret, tmp, w2) =>
          let sum2 := if ret ≠ -1 then sum + tmp else sum
          let file2 := if ret ≠ -1 then file + ret else file
          match chdirS (bytes "..") w2 with
          | none => none
          | some w3 => dotMcLoop es sum2 file2 w3

/-- `parseDotMinecraftDirectory` after the optional `chdir(path)`
(lines 165-192). -/
def dotMcBody (origin : Option (List Nat)) (w : World) : Option (Int × Int × World) :=
  match parseDirectory (some (bytes "logs")) (some (bytes "..")) w with
  | none => none
  | some (ret, tmp, w1) =>
    let sum : Int := if ret ≠ -1 then tmp else 0
    let file : Int := if ret ≠ -1 then ret else 0
    match w1.chd w1.cwd (bytes "versions") with
    | none => versionsEnd origin sum file w1
    | some c =>
      match w1.lst c with
      | none => dirEnd origin sum file { w1 with cwd := c }
      | some entries =>
        match dotMcLoop entries sum file { w1 with cwd := c } with
        | none => none
        | some (sum2, file2, w3) => dirEnd origin sum2 file2 w3

/-- `parseDotMinecraftDirectory` (lines 161-193). -/
def parseDotMinecraftDirectory (path origin : Option (List Nat)) (w : World) :
    Option (Int × Int × World) :=
  match path with
  | some p =>
    match w.chd w.cwd p with
    | none => some (-1, 0, w)
    | some c => dotMcBody origin { w with cwd := c }
  | none => dotMcBody origin w

/-- The common tail of the two `switch` statements in the directory
branch of `autoParse` (lines 238-262): `-1` and `0` from the delegate both
return `-1` immediately — without restoring `origin` — while a positive
count falls through to the `chdir_s(origin)` at lines 265-266. -/
def autoParseDirResult (origin : Option (List Nat))
    (res : Option (Int × Int × World)) : Option (Int × Int × World) :=
  match res with
  | none => none
  | some (ret, tmp, w2) =>
    if ret = -1 ∨ ret = 0 then some (-1, 0, w2)
    else
      match origin with
      | none => some (ret, tmp, w2)
      | some o =>
        match chdirS o w2 with
        | none => none
        | some w3 => some (ret, tmp, w3)

/-- `autoParse` (lines 215-289): stat the path, then dispatch on the node
kind; in the directory branch, `chdir` into it and pick the delegate from
`basename(getcwd())`. -/
def autoParse (path0 origin : Option (List Nat)) (w : World) :
    Option (Int × Int × World) :=
  let path := path0.getD (bytes ".")
  match w.sta w.cwd path with
  | none => some (-1, 0, w)
  | some FType.dir =>
    match w.chd w.cwd path with
    | none => some (-1, 0, w)
    | some c =>
      let w1 : World := { w with cwd := c }
      let name := w1.cwd.getLastD (bytes "/")
      if name = bytes ".minecraft" then
        autoParseDirResult origin (parseDotMinecraftDirectory none none w1)
      else
        autoParseDirResult origin (parseDirectory none none w1)
  | some FType.reg =>
    let r := parseFile (w.opn w.cwd path)
    if r.ret = 1 then some (-1, 0, w)
    else if r.ret = 2 then some (-1, 0, w)
    else some (1, r.time, w)
  | some FType.other => some (-1, 0, w)

/-- A directory entry both accepted by the classifier and successfully
parsed. -/
def parsedOk (w : World) (n : List Nat) : Bool :=
  isLogGzFile n && ((parseFile (w.opn w.cwd n)).ret == 0)

/-- Concrete directory for the C5 example: two archived logs of durations
100 and 200, a `latest.log` of duration 50, and one unrelated file. -/
def mcEntries : List (List Nat) :=
  [bytes ".", bytes "..", bytes "2023-10-05-1.log.gz", bytes "2023-10-05-2.log.gz",
   bytes "latest.log", bytes "notes.txt"]

def mcWorld : World where
  cwd := [bytes "mc"]
  chd := fun cur p =>
    if cur = [bytes "mc"] ∧ p = bytes "logs" then some [bytes "mc", bytes "logs"]
    else none
  lst := fun cur => if cur = [bytes "mc", bytes "logs"] then some mcEntries else none
  opn := fun _ n =>
    if n = bytes "2023-10-05-1.log.gz" then
      some ⟨bytes "[00:00:00] joined\n[00:01:40] left\n", false⟩
    else if n = bytes "2023-10-05-2.log.gz" then
      some ⟨bytes "[00:00:00] joined\n[00:03:20] left\n", false⟩
    else if n = bytes "latest.log" then
      some ⟨bytes "[00:00:00] joined\n[00:00:50] left\n", false⟩
    else none
  sta := fun _ _ => none

/-- World for the C1 `parseDirectory` leak: `chdir("logs")` succeeds but
`opendir(".")` then fails (a directory with execute but no read
permission); restoring the origin `"/home"` would have succeeded. -/
def leakWorldA : World where
  cwd := [bytes "home"]
  chd := fun cur p =>
    if p = bytes "logs" ∧ cur = [bytes "home"] then some [bytes "home", bytes "logs"]
    else if p = bytes "/home" then some [bytes "home"]
    else none
  lst := fun _ => none
  opn := fun _ _ => none
  sta := fun _ _ => none

/-- World for the C1 `autoParse` leak: `"d"` stats as a directory,
`chdir` succeeds, the listing is empty and `latest.log` absent, so the
directory delegate reports zero files parsed. -/
def leakWorldB : World where
  cwd := [bytes "home"]
  chd := fun cur p =>
    if p = bytes "d" ∧ cur = [bytes "home"] then some [bytes "home", bytes "d"]
    else if p = bytes "/home" then some [bytes "home"]
    else none
  lst := fun cur => if cur = [bytes "home", bytes "d"] then some [] else none
  opn := fun _ _ => none
  sta := fun _ p => if p = bytes "d" then some FType.dir else none

example : (parseLine ⟨bytes "[12:34:56] hi\nrest", false⟩).1 = some 45296 := by decide

example : (parseLine ⟨bytes "[12:34:56] hi\nrest", false⟩).2 = ⟨bytes "rest", false⟩ := by decide

example : (parseLine ⟨bytes "x[12:34:56]\n", false⟩).1 = none := by decide

example : (parseLine ⟨bytes "x[12:34:56]\n", false⟩).2 = ⟨bytes "[12:34:56]\n", false⟩ := by decide

example : (parseLine ⟨[], false⟩).2.past = true := by decide

lemma skipToEolAux_len (l : List Nat) (p : Bool) :
    (skipToEolAux l p).buf.length ≤ l.length := by
  induction l with
  | nil => simp [skipToEolAux]
  | cons c rest ih =>
    simp only [skipToEolAux]
    split
    · simp
    · exact (ih).trans (by simp)

lemma skipEolsAux_len (l : List Nat) (p : Bool) :
    (skipEolsAux l p).buf.length ≤ l.length := by
  induction l with
  | nil => simp [skipEolsAux]
  | cons c rest ih =>
    simp only [skipEolsAux]
    split
    · exact (ih).trans (by simp)
    · simp [gzungetc]

lemma matchTag_spec (ts : List Nat) (hh mm ss : Nat) (g : Gz) :
    ((matchTag ts hh mm ss g).1.isSome →
      (matchTag ts hh mm ss g).2.buf.length + ts.length = g.buf.length ∧
      (matchTag ts hh mm ss g).2.past = g.past) ∧
    ((matchTag ts hh mm ss g).1 = none →
      (matchTag ts hh mm ss g).2.buf.length < g.buf.length ∨
      ((matchTag ts hh mm ss g).2.past = true ∧
        (matchTag ts hh mm ss g).2.buf.length ≤ g.buf.length)) := by
  induction ts generalizing hh mm ss g with
  | nil => simp [matchTag]
  | cons t ts ih =>
    obtain ⟨g0, p0⟩ := g
    cases g0 with
    | nil => simp [matchTag, gzgetc]
    | cons c rest =>
      have hbuf : (⟨rest, p0⟩ : Gz).buf = rest := rfl
      have step : ∀ hh2 mm2 ss2 : Nat,
          ((matchTag ts hh2 mm2 ss2 ⟨rest, p0⟩).1.isSome →
            (matchTag ts hh2 mm2 ss2 ⟨rest, p0⟩).2.buf.length + (t :: ts).length =
              (c :: rest).length ∧
            (matchTag ts hh2 mm2 ss2 ⟨rest, p0⟩).2.past = p0) ∧
          ((matchTag ts hh2 mm2 ss2 ⟨rest, p0⟩).1 = none →
            (matchTag ts hh2 mm2 ss2 ⟨rest, p0⟩).2.buf.length < (c :: rest).length ∨
            ((matchTag ts hh2 mm2 ss2 ⟨rest, p0⟩).2.past = true ∧
              (matchTag ts hh2 mm2 ss2 ⟨rest, p0⟩).2.buf.length ≤ (c :: rest).length)) := by
        intro hh2 mm2 ss2
        have h := ih hh2 mm2 ss2 ⟨rest, p0⟩
        rw [hbuf] at h
        constructor
        · intro hs
          have h1 := h.1 hs
          simp only [List.length_cons]
          constructor
          · omega
          · exact h1.2
        · intro hn
          have h2 := h.2 hn
          simp only [List.length_cons]
          omega
      simp only [matchTag, gzgetc]
      split
      · split
        · split
          · exact step _ _ _
          · split
            · exact step _ _ _
            · exact step _ _ _
        · simp
      · split
        · exact step _ _ _
        · simp

lemma parseLine_progress_aux (g : Gz) :
    (parseLine g).2.buf.length < g.buf.length ∨
    ((parseLine g).2.past = true ∧ (parseLine g).2.buf.length ≤ g.buf.length) := by
  have hm := matchTag_spec tag 0 0 0 g
  unfold parseLine
  rcases hmt : matchTag tag 0 0 0 g with ⟨r, g'⟩
  cases r with
  | none =>
    have := hm.2
    rw [hmt] at this
    simpa using this rfl
  | some t =>
    have hts : g'.buf.length + tag.length = g.buf.length ∧ g'.past = g.past := by
      have := hm.1
      rw [hmt] at this
      simpa using this
    have htag : tag.length = 10 := by decide
    simp only
    have h1 := skipToEolAux_len g'.buf g'.past
    have h2 := skipEolsAux_len (skipToEol g').buf (skipToEol g').past
    left
    have : (skipEols (skipToEol g')).buf.length ≤ g'.buf.length := by
      unfold skipEols skipToEol at *
      omega
    omega

lemma skipToEolAux_suffix (l : List Nat) (p : Bool) :
    (skipToEolAux l p).buf <:+ l := by
  induction l with
  | nil => simp [skipToEolAux]
  | cons c rest ih =>
    simp only [skipToEolAux]
    split
    · exact (List.suffix_cons c rest)
    · exact (ih).trans (List.suffix_cons c rest)

lemma skipEolsAux_suffix (l : List Nat) (p : Bool) :
    (skipEolsAux l p).buf <:+ l := by
  induction l with
  | nil => simp [skipEolsAux]
  | cons c rest ih =>
    simp only [skipEolsAux]
    split
    · exact (ih).trans (List.suffix_cons c rest)
    · exact List.suffix_rfl

lemma matchTag_suffix (ts : List Nat) (hh mm ss : Nat) (g : Gz) :
    (matchTag ts hh mm ss g).2.buf <:+ g.buf := by
  induction ts generalizing hh mm ss g with
  | nil => simp [matchTag]
  | cons t ts ih =>
    obtain ⟨g0, p0⟩ := g
    cases g0 with
    | nil => simp [matchTag, gzgetc]
    | cons c rest =>
      have step : ∀ hh2 mm2 ss2 : Nat,
          (matchTag ts hh2 mm2 ss2 ⟨rest, p0⟩).2.buf <:+ c :: rest := fun hh2 mm2 ss2 =>
        (ih hh2 mm2 ss2 ⟨rest, p0⟩).trans (List.suffix_cons c rest)
      simp only [matchTag, gzgetc]
      split
      · split
        · split
          · exact step _ _ _
          · split
            · exact step _ _ _
            · exact step _ _ _
        · exact List.suffix_cons c rest
      · split
        · exact step _ _ _
        · exact List.suffix_cons c rest

lemma parseLine_suffix (g : Gz) : (parseLine g).2.buf <:+ g.buf := by
  have hm := matchTag_suffix tag 0 0 0 g
  unfold parseLine
  rcases hmt : matchTag tag 0 0 0 g with ⟨r, g'⟩
  rw [hmt] at hm
  cases r with
  | none => exact hm
  | some t =>
    refine (?_ : (skipEols (skipToEol g')).buf <:+ g'.buf).trans hm
    exact ((skipEolsAux_suffix _ _).trans (skipToEolAux_suffix _ _))

example : parseFile (some ⟨bytes "[00:00:10]\n[00:01:00]\n", false⟩) = ⟨0, 50, true⟩ := by decide

example : parseFile (some ⟨bytes "[00:00:10] only\n", false⟩) = ⟨0, 0, true⟩ := by decide

example : parseFile (some ⟨[], false⟩) = ⟨2, 0, false⟩ := by decide

example : parseFile none = ⟨1, 0, true⟩ := by decide

example : parseFile (some ⟨bytes "[23:59:59]\n[00:00:01]\n", false⟩) = ⟨0, -86398, true⟩ := by
  decide

lemma parseLine_measure (g : Gz) (h : g.past = false) :
    gzMeasure (parseLine g).2 < gzMeasure g := by
  have hp := parseLine_progress_aux g
  unfold gzMeasure
  rw [h]
  rcases hp with h1 | ⟨h1, h2⟩
  · by_cases h3 : (parseLine g).2.past <;> simp [h3] <;> omega
  · rw [h1]
    simp
    omega

lemma gzMeasure_zero (g : Gz) (h : gzMeasure g = 0) : g.buf = [] ∧ g.past = true := by
  unfold gzMeasure at h
  constructor
  · cases hb : g.buf with
    | nil => rfl
    | cons c r => rw [hb] at h; simp at h
  · by_contra hp
    simp [Bool.not_eq_true] at hp
    rw [hp] at h
    simp at h

/-- A single `parseLine` call, restated on the destructed result. -/
lemma parseLine_progress_eq (g : Gz) (r : Option Nat) (g' : Gz)
    (hq : parseLine g = (r, g')) :
    g'.buf.length < g.buf.length ∨ (g'.past = true ∧ g'.buf.length ≤ g.buf.length) := by
  have h0 := parseLine_progress_aux g
  rw [hq] at h0
  simpa using h0

lemma scanRestListGo_fuel (f1 : Nat) : ∀ (f2 : Nat) (g : Gz),
    gzMeasure g ≤ f1 → gzMeasure g ≤ f2 →
    scanRestListGo f1 g = scanRestListGo f2 g := by
  induction f1 with
  | zero =>
    intro f2 g h1 h2
    obtain ⟨hb, hp⟩ := gzMeasure_zero g (Nat.le_zero.mp h1)
    cases f2 with
    | zero => rfl
    | succ m => simp [scanRestListGo, gzeof, hp]
  | succ n ih =>
    intro f2 g h1 h2
    cases f2 with
    | zero =>
      obtain ⟨hb, hp⟩ := gzMeasure_zero g (Nat.le_zero.mp h2)
      simp [scanRestListGo, gzeof, hp]
    | succ m =>
      simp only [scanRestListGo]
      by_cases hp : gzeof g
      · simp [hp]
      · have hpast : g.past = false := by simpa [gzeof] using hp
        have hm : gzMeasure (parseLine g).2 < gzMeasure g := parseLine_measure g hpast
        rcases hq : parseLine g with ⟨r, g'⟩
        have hm' : gzMeasure g' < gzMeasure g := by rw [hq] at hm; simpa using hm
        cases r with
        | some t => simp only [hp, if_false]; rw [ih m g' (by omega) (by omega)]
        | none => simp only [hp, if_false]; rw [ih m g' (by omega) (by omega)]

lemma scanRestGo_getLastD (fuel : Nat) : ∀ (e : Nat) (g : Gz),
    (scanRestGo fuel e g).1 = (scanRestListGo fuel g).getLastD e := by
  induction fuel with
  | zero => intro e g; simp [scanRestGo, scanRestListGo]
  | succ n ih =>
    intro e g
    simp only [scanRestGo, scanRestListGo]
    by_cases hp : gzeof g
    · simp [hp]
    · have hpast : g.past = false := by simpa [gzeof] using hp
      simp only [gzeof, hpast, Bool.false_eq_true, if_false]
      rcases hq : parseLine g with ⟨r, g'⟩
      cases r with
      | some t => dsimp only; rw [ih, List.getLastD_cons]
      | none => dsimp only; rw [ih]

lemma findFirstGo_none_scanAllGo (fuel : Nat) : ∀ g : Gz,
    findFirstGo fuel g = none → scanAllGo fuel g = [] := by
  induction fuel with
  | zero => intro g _; rfl
  | succ n ih =>
    intro g hf
    simp only [findFirstGo] at hf
    simp only [scanAllGo]
    rcases hq : parseLine g with ⟨r, g'⟩
    rw [hq] at hf
    cases r with
    | some t => simp at hf
    | none =>
      simp only at hf ⊢
      by_cases hp : gzeof g'
      · simp [hp]
      · simp only [hp, if_false] at hf ⊢
        exact ih g' hf

lemma findFirstGo_some_scanAllGo (fuel : Nat) : ∀ (g : Gz) (t : Nat) (g1 : Gz),
    g.buf.length < fuel → findFirstGo fuel g = some (t, g1) →
    scanAllGo fuel g = t :: scanRestList g1 := by
  induction fuel with
  | zero => intro g t g1 h hf; omega
  | succ n ih =>
    intro g t g1 hlen hf
    rcases hq : parseLine g with ⟨r, g'⟩
    have hprog := parseLine_progress_eq g r g' hq
    simp only [findFirstGo, hq] at hf
    simp only [scanAllGo, hq]
    cases r with
    | some t0 =>
      simp only [Option.some.injEq, Prod.mk.injEq] at hf
      obtain ⟨ht, hg⟩ := hf
      subst ht
      subst hg
      have hmeas : gzMeasure g' ≤ n := by
        unfold gzMeasure
        rcases hprog with h1 | ⟨h1, h2⟩
        · split <;> omega
        · simp [h1]
          omega
      simp only
      rw [scanRestList]
      exact congrArg (List.cons t0)
        (scanRestListGo_fuel n (g'.buf.length + 2) g' hmeas
          (by unfold gzMeasure; split <;> omega))
    | none =>
      simp only at hf ⊢
      by_cases hp : gzeof g'
      · simp [hp] at hf
      · simp only [hp, if_false] at hf ⊢
        have hpast : g'.past = false := by simpa [gzeof] using hp
        have hlt : g'.buf.length < g.buf.length := by
          rcases hprog with h1 | ⟨h1, h2⟩
          · exact h1
          · rw [h1] at hpast; cases hpast
        exact ih g' t g1 (by omega) hf

/-- C2: for every log file that `parseFile` opens successfully and in which
at least one line yields a timestamp (the successful `TimestampScanner`
results of the run are `t :: ts`), the returned duration is the last
successfully scanned timestamp minus the first; failed lines in between do
not affect the result. -/
theorem parseFile_duration_last_sub_first (g : Gz) (t : Nat) (ts : List Nat)
    (h : scanAll g = t :: ts) :
    (parseFile (some g)).ret = 0 ∧
    (parseFile (some g)).time = (ts.getLastD t : Int) - (t : Int) := by
  cases hf : findFirst g with
  | none =>
    have hf' : findFirstGo (g.buf.length + 1) g = none := by
      rw [findFirst] at hf
      exact hf
    have h0 : scanAll g = [] := by
      rw [scanAll]
      exact findFirstGo_none_scanAllGo _ _ hf'
    rw [h] at h0
    cases h0
  | some p =>
    obtain ⟨t0, g1⟩ := p
    have hf' : findFirstGo (g.buf.length + 1) g = some (t0, g1) := by
      rw [findFirst] at hf
      exact hf
    have hs : scanAll g = t0 :: scanRestList g1 := by
      rw [scanAll]
      exact findFirstGo_some_scanAllGo (g.buf.length + 1) g t0 g1 (Nat.lt_succ_self _) hf'
    rw [h] at hs
    obtain ⟨ht, hts⟩ : t0 = t ∧ scanRestList g1 = ts := by
      cases hs
      exact ⟨rfl, rfl⟩
    have hlast : (scanRest t0 g1).1 = ts.getLastD t := by
      rw [scanRest, scanRestGo_getLastD, ← scanRestList, hts, ht]
    rcases hsr : scanRest t0 g1 with ⟨endv, gend⟩
    rw [hsr] at hlast
    simp only at hlast
    have hpf : parseFile (some g) = ⟨0, (endv : Int) - (t0 : Int), true⟩ := by
      simp only [parseFile, hf, hsr]
    rw [hpf, hlast, ht]
    exact ⟨rfl, rfl⟩

theorem parseFile_duration_last_sub_first_witness :
    scanAll fileC2a = [10, 60] ∧
    (parseFile (some fileC2a)).ret = 0 ∧ (parseFile (some fileC2a)).time = 50 ∧
    scanAll fileC2b = [10] ∧
    (parseFile (some fileC2b)).ret = 0 ∧ (parseFile (some fileC2b)).time = 0 := by
  have ha : scanAll fileC2a = [10, 60] := by decide
  have hb : scanAll fileC2b = [10] := by decide
  have ra := parseFile_duration_last_sub_first fileC2a 10 [60] ha
  have rb := parseFile_duration_last_sub_first fileC2b 10 [] hb
  exact ⟨ha, ra.1, ra.2.trans (by decide), hb, rb.1, rb.2.trans (by decide)⟩

lemma isdigit_iff (c : Nat) : isdigit c = true ↔ 48 ≤ c ∧ c ≤ 57 := by
  unfold isdigit
  simp [Bool.and_eq_true, decide_eq_true_eq]

lemma isdigit_true (d : Nat) (hd : d ≤ 9) : isdigit (48 + d) = true := by
  rw [isdigit_iff]
  omega

lemma matchTag_isSome_eq_specMatch (ts : List Nat) (hh mm ss : Nat) (g : Gz) :
    (matchTag ts hh mm ss g).1.isSome = specMatch ts g.buf := by
  induction ts generalizing hh mm ss g with
  | nil => simp [matchTag, specMatch]
  | cons t ts ih =>
    obtain ⟨g0, p0⟩ := g
    cases g0 with
    | nil => simp [matchTag, gzgetc, specMatch]
    | cons c rest =>
      have step : ∀ hh2 mm2 ss2 : Nat,
          (matchTag ts hh2 mm2 ss2 ⟨rest, p0⟩).1.isSome = specMatch ts rest :=
        fun hh2 mm2 ss2 => ih hh2 mm2 ss2 ⟨rest, p0⟩
      simp only [matchTag, gzgetc, specMatch]
      split
      · split
        · split
          · exact step _ _ _
          · split
            · exact step _ _ _
            · exact step _ _ _
        · simp
      · split
        · exact step _ _ _
        · simp

lemma specMatch_cons_lit (t : Nat) (ht : ¬(t = 104 ∨ t = 109 ∨ t = 115))
    (ts buf : List Nat) :
    specMatch (t :: ts) buf = true ↔
      ∃ cs, buf = t :: cs ∧ specMatch ts cs = true := by
  cases buf with
  | nil => simp [specMatch]
  | cons c cs =>
    simp only [specMatch, if_neg ht, List.cons.injEq]
    by_cases hc : c = t
    · subst hc
      simp
    · simp [hc, fun h : t = c => hc h.symm]

lemma specMatch_cons_dig (t : Nat) (ht : t = 104 ∨ t = 109 ∨ t = 115)
    (ts buf : List Nat) :
    specMatch (t :: ts) buf = true ↔
      ∃ c cs, buf = c :: cs ∧ isdigit c = true ∧ specMatch ts cs = true := by
  cases buf with
  | nil => simp [specMatch]
  | cons c cs =>
    simp only [specMatch, if_pos ht, List.cons.injEq]
    by_cases hc : isdigit c
    · rw [if_pos hc]
      constructor
      · intro h
        exact ⟨c, cs, ⟨rfl, rfl⟩, hc, h⟩
      · rintro ⟨c2, cs2, ⟨hce, hcse⟩, hd, h⟩
        subst hce
        subst hcse
        exact h
    · simp [hc]

lemma specMatch_tag_decomp (buf : List Nat) (h : specMatch tag buf = true) :
    ∃ c1 c2 c4 c5 c7 c8 rest,
      buf = 91 :: c1 :: c2 :: 58 :: c4 :: c5 :: 58 :: c7 :: c8 :: 93 :: rest ∧
      isdigit c1 = true ∧ isdigit c2 = true ∧ isdigit c4 = true ∧
      isdigit c5 = true ∧ isdigit c7 = true ∧ isdigit c8 = true := by
  have htag : tag = [91, 104, 104, 58, 109, 109, 58, 115, 115, 93] := by decide
  rw [htag] at h
  rw [specMatch_cons_lit 91 (by decide)] at h
  obtain ⟨b1, hb1, h⟩ := h
  rw [specMatch_cons_dig 104 (by decide)] at h
  obtain ⟨c1, b2, hb2, hd1, h⟩ := h
  rw [specMatch_cons_dig 104 (by decide)] at h
  obtain ⟨c2, b3, hb3, hd2, h⟩ := h
  rw [specMatch_cons_lit 58 (by decide)] at h
  obtain ⟨b4, hb4, h⟩ := h
  rw [specMatch_cons_dig 109 (by decide)] at h
  obtain ⟨c4, b5, hb5, hd4, h⟩ := h
  rw [specMatch_cons_dig 109 (by decide)] at h
  obtain ⟨c5, b6, hb6, hd5, h⟩ := h
  rw [specMatch_cons_lit 58 (by decide)] at h
  obtain ⟨b7, hb7, h⟩ := h
  rw [specMatch_cons_dig 115 (by decide)] at h
  obtain ⟨c7, b8, hb8, hd7, h⟩ := h
  rw [specMatch_cons_dig 115 (by decide)] at h
  obtain ⟨c8, b9, hb9, hd8, h⟩ := h
  rw [specMatch_cons_lit 93 (by decide)] at h
  obtain ⟨b10, hb10, h⟩ := h
  subst hb1 hb2 hb3 hb4 hb5 hb6 hb7 hb8 hb9 hb10
  exact ⟨c1, c2, c4, c5, c7, c8, b10, rfl, hd1, hd2, hd4, hd5, hd7, hd8⟩

lemma matchTag_step_lit (t : Nat) (ht : ¬(t = 104 ∨ t = 109 ∨ t = 115))
    (ts : List Nat) (hh mm ss : Nat) (rest : List Nat) (p : Bool) :
    matchTag (t :: ts) hh mm ss ⟨t :: rest, p⟩ = matchTag ts hh mm ss ⟨rest, p⟩ := by
  simp only [matchTag, gzgetc, if_neg ht]
  simp

lemma matchTag_step_h (ts : List Nat) (hh mm ss d : Nat) (hd : d ≤ 9)
    (rest : List Nat) (p : Bool) :
    matchTag (104 :: ts) hh mm ss ⟨(48 + d) :: rest, p⟩ =
      matchTag ts (hh * 10 + d) mm ss ⟨rest, p⟩ := by
  simp only [matchTag, gzgetc, isdigit_true d hd, Nat.add_sub_cancel_left]
  norm_num

lemma matchTag_step_m (ts : List Nat) (hh mm ss d : Nat) (hd : d ≤ 9)
    (rest : List Nat) (p : Bool) :
    matchTag (109 :: ts) hh mm ss ⟨(48 + d) :: rest, p⟩ =
      matchTag ts hh (mm * 10 + d) ss ⟨rest, p⟩ := by
  simp only [matchTag, gzgetc, isdigit_true d hd, Nat.add_sub_cancel_left]
  norm_num

lemma matchTag_step_s (ts : List Nat) (hh mm ss d : Nat) (hd : d ≤ 9)
    (rest : List Nat) (p : Bool) :
    matchTag (115 :: ts) hh mm ss ⟨(48 + d) :: rest, p⟩ =
      matchTag ts hh mm (ss * 10 + d) ⟨rest, p⟩ := by
  simp only [matchTag, gzgetc, isdigit_true d hd, Nat.add_sub_cancel_left]
  norm_num

lemma matchTag_tmpl (h1 h2 m1 m2 s1 s2 : Nat)
    (hh1 : h1 ≤ 9) (hh2 : h2 ≤ 9) (hm1 : m1 ≤ 9) (hm2 : m2 ≤ 9)
    (hs1 : s1 ≤ 9) (hs2 : s2 ≤ 9) (rest : List Nat) (p : Bool) :
    matchTag tag 0 0 0
        ⟨91 :: (48 + h1) :: (48 + h2) :: 58 :: (48 + m1) :: (48 + m2) :: 58 ::
          (48 + s1) :: (48 + s2) :: 93 :: rest, p⟩ =
      (some (((10 * h1 + h2) * 60 + (10 * m1 + m2)) * 60 + (10 * s1 + s2)),
        ⟨rest, p⟩) := by
  have htag : tag = [91, 104, 104, 58, 109, 109, 58, 115, 115, 93] := by decide
  rw [htag]
  rw [matchTag_step_lit 91 (by decide)]
  rw [matchTag_step_h _ _ _ _ h1 hh1]
  rw [matchTag_step_h _ _ _ _ h2 hh2]
  rw [matchTag_step_lit 58 (by decide)]
  rw [matchTag_step_m _ _ _ _ m1 hm1]
  rw [matchTag_step_m _ _ _ _ m2 hm2]
  rw [matchTag_step_lit 58 (by decide)]
  rw [matchTag_step_s _ _ _ _ s1 hs1]
  rw [matchTag_step_s _ _ _ _ s2 hs2]
  rw [matchTag_step_lit 93 (by decide)]
  simp only [matchTag, Prod.mk.injEq, Option.some.injEq]
  constructor
  · omega
  · trivial

lemma parseLine_tmpl (h m s : Nat) (hh : h < 100) (hm : m < 100) (hs : s < 100)
    (rest : List Nat) (p : Bool) :
    parseLine ⟨tmplBytes h m s ++ rest, p⟩ =
      (some ((h * 60 + m) * 60 + s), skipEols (skipToEol ⟨rest, p⟩)) := by
  have key := matchTag_tmpl (h / 10) (h % 10) (m / 10) (m % 10) (s / 10) (s % 10)
    (by omega) (by omega) (by omega) (by omega) (by omega) (by omega) rest p
  have hb : tmplBytes h m s ++ rest =
      91 :: (48 + h / 10) :: (48 + h % 10) :: 58 :: (48 + m / 10) :: (48 + m % 10) :: 58 ::
        (48 + s / 10) :: (48 + s % 10) :: 93 :: rest := by
    simp [tmplBytes]
  have hv : ((10 * (h / 10) + h % 10) * 60 + (10 * (m / 10) + m % 10)) * 60 +
      (10 * (s / 10) + s % 10) = (h * 60 + m) * 60 + s := by omega
  unfold parseLine
  rw [hb, key]
  dsimp only
  rw [hv]

/-- A `parseLine` call yields a timestamp exactly when the stream begins
with the rendered template; shared characterisation lemma. -/
lemma parseLine_some_iff_tmpl (buf : List Nat) (p : Bool) (t : Nat) :
    (parseLine ⟨buf, p⟩).1 = some t ↔
      ∃ h m s rest, h < 100 ∧ m < 100 ∧ s < 100 ∧
        buf = tmplBytes h m s ++ rest ∧ t = (h * 60 + m) * 60 + s := by
  constructor
  · intro hp
    have hsm : specMatch tag buf = true := by
      rw [← matchTag_isSome_eq_specMatch tag 0 0 0 ⟨buf, p⟩]
      unfold parseLine at hp
      rcases hmt : matchTag tag 0 0 0 ⟨buf, p⟩ with ⟨r, g'⟩
      rw [hmt] at hp
      cases r with
      | none => simp at hp
      | some v => simp
    obtain ⟨c1, c2, c4, c5, c7, c8, rest, hbuf, hd1, hd2, hd4, hd5, hd7, hd8⟩ :=
      specMatch_tag_decomp buf hsm
    obtain ⟨hl1, hu1⟩ := (isdigit_iff c1).mp hd1
    obtain ⟨hl2, hu2⟩ := (isdigit_iff c2).mp hd2
    obtain ⟨hl4, hu4⟩ := (isdigit_iff c4).mp hd4
    obtain ⟨hl5, hu5⟩ := (isdigit_iff c5).mp hd5
    obtain ⟨hl7, hu7⟩ := (isdigit_iff c7).mp hd7
    obtain ⟨hl8, hu8⟩ := (isdigit_iff c8).mp hd8
    have hbufT : buf = tmplBytes (10 * (c1 - 48) + (c2 - 48)) (10 * (c4 - 48) + (c5 - 48))
        (10 * (c7 - 48) + (c8 - 48)) ++ rest := by
      rw [hbuf]
      unfold tmplBytes
      simp only [List.cons_append, List.nil_append, List.cons.injEq]
      exact ⟨trivial, by omega, by omega, trivial, by omega, by omega, trivial, by omega,
        by omega, trivial⟩
    have hval := parseLine_tmpl (10 * (c1 - 48) + (c2 - 48)) (10 * (c4 - 48) + (c5 - 48))
      (10 * (c7 - 48) + (c8 - 48)) (by omega) (by omega) (by omega) rest p
    rw [hbufT, hval] at hp
    simp only [Option.some.injEq] at hp
    exact ⟨10 * (c1 - 48) + (c2 - 48), 10 * (c4 - 48) + (c5 - 48),
      10 * (c7 - 48) + (c8 - 48), rest, by omega, by omega, by omega, hbufT, hp.symm⟩
  · rintro ⟨h, m, s, rest, hh, hm, hs, hbuf, ht⟩
    subst hbuf
    subst ht
    rw [parseLine_tmpl h m s hh hm hs rest p]

/-- C3: `parseLine` returns timestamp `t` exactly when the stream begins
with the literal template `[HH:MM:SS]` — a `'['`, two decimal digits,
`':'`, two digits, `':'`, two digits, `']'` — and then
`t = (h*60+m)*60+s` for the decoded two-digit fields `h`, `m`, `s`, each in
0..99; a non-digit in a digit slot, a mismatched literal character, or
end-of-stream before the template completes is a scan failure. -/
theorem timestampScanner_template (buf : List Nat) (p : Bool) (t : Nat) :
    (parseLine ⟨buf, p⟩).1 = some t ↔
      ∃ h m s rest, h < 100 ∧ m < 100 ∧ s < 100 ∧
        buf = tmplBytes h m s ++ rest ∧ t = (h * 60 + m) * 60 + s :=
  parseLine_some_iff_tmpl buf p t

/-- C6 counterexample: the line `[99:99:99] ...` is scanned successfully
(no upper bound is enforced on the fields), yielding timestamp
`(99*60+99)*60+99 = 362439`, which exceeds 86399. -/
theorem timestamp_range_counterexample :
    (parseLine ⟨bytes "[99:99:99] oops", false⟩).1 = some 362439 ∧
    ¬(362439 ≤ 86399) := by decide

/-- C6 (amended): every timestamp produced by a successful `parseLine`
match lies in the range [0, 362439] (`(99*60+99)*60+99`); the bound 86399
is not enforced because each two-digit field may reach 99. -/
theorem timestamp_range (g : Gz) (t : Nat) (h : (parseLine g).1 = some t) :
    t ≤ 362439 := by
  obtain ⟨g0, p0⟩ := g
  obtain ⟨hh, mm, ss, rest, h1, h2, h3, _, ht⟩ := (parseLine_some_iff_tmpl g0 p0 t).mp h
  omega

theorem timestamp_range_witness :
    (parseLine ⟨bytes "[99:99:99]", false⟩).1 = some 362439 ∧ 362439 ≤ 362439 :=
  ⟨by decide, timestamp_range ⟨bytes "[99:99:99]", false⟩ 362439 (by decide)⟩

lemma skipToEolAux_through (pre : List Nat) (hpre : ∀ x ∈ pre, ¬(x = 13 ∨ x = 10))
    (t : Nat) (hterm : t = 13 ∨ t = 10) (rest : List Nat) (p : Bool) :
    skipToEolAux (pre ++ t :: rest) p = ⟨rest, p⟩ := by
  induction pre with
  | nil => simp [skipToEolAux, if_pos hterm]
  | cons c cs ih =>
    have hc : ¬(c = 13 ∨ c = 10) := hpre c (List.mem_cons_self c cs)
    simp only [List.cons_append, skipToEolAux, if_neg hc]
    exact ih fun x hx => hpre x (List.mem_cons_of_mem c hx)

lemma skipEolsAux_through (terms : List Nat) (hterms : ∀ x ∈ terms, x = 13 ∨ x = 10)
    (c : Nat) (hc : ¬(c = 13 ∨ c = 10)) (suf : List Nat) (p : Bool) :
    skipEolsAux (terms ++ c :: suf) p = ⟨c :: suf, false⟩ := by
  induction terms with
  | nil => simp [skipEolsAux, if_neg hc, gzungetc]
  | cons e es ih =>
    have he : e = 13 ∨ e = 10 := hterms e (List.mem_cons_self e es)
    simp only [List.cons_append, skipEolsAux, if_pos he]
    exact ih fun x hx => hterms x (List.mem_cons_of_mem e hx)

lemma skipEolsAux_all (terms : List Nat) (hterms : ∀ x ∈ terms, x = 13 ∨ x = 10)
    (p : Bool) : skipEolsAux terms p = ⟨[], true⟩ := by
  induction terms with
  | nil => simp [skipEolsAux]
  | cons e es ih =>
    have he : e = 13 ∨ e = 10 := hterms e (List.mem_cons_self e es)
    simp only [skipEolsAux, if_pos he]
    exact ih fun x hx => hterms x (List.mem_cons_of_mem e hx)

/-- C4 counterexample: on the stream `"ab\n[00:00:01]\n"` the match fails
at the first byte; the cursor is left just past the mismatching byte
(`"b\n[00:00:01]\n"` remains), not at the start of the next line, which
advancing (consume through the terminator, absorb further terminators,
push back the non-terminator) would make `"[00:00:01]\n"`. -/
theorem scanner_advance_counterexample :
    (parseLine ⟨bytes "ab\n[00:00:01]\n", false⟩).1 = none ∧
    (parseLine ⟨bytes "ab\n[00:00:01]\n", false⟩).2 = ⟨bytes "b\n[00:00:01]\n", false⟩ ∧
    skipEols (skipToEol ⟨bytes "ab\n[00:00:01]\n", false⟩) = ⟨bytes "[00:00:01]\n", false⟩ ∧
    (⟨bytes "b\n[00:00:01]\n", false⟩ : Gz) ≠ (⟨bytes "[00:00:01]\n", false⟩ : Gz) := by
  decide

/-- C4 (amended): after every SUCCESSFUL `parseLine` invocation the cursor
is advanced to the start of the next line — the bytes of the current line
are consumed up to and including the line terminator (`'\r'` or `'\n'`),
any further consecutive terminators are absorbed, and a non-terminator
byte consumed during the trailing skip is pushed back; end-of-stream during
the trailing skip is not an error. After a FAILED invocation the cursor is
left where matching stopped; no line skip is performed. -/
theorem scanner_advances_on_success
    (h m s : Nat) (hh : h < 100) (hm : m < 100) (hs : s < 100)
    (pre : List Nat) (hpre : ∀ x ∈ pre, ¬(x = 13 ∨ x = 10))
    (t : Nat) (hterm : t = 13 ∨ t = 10)
    (terms : List Nat) (hterms : ∀ x ∈ terms, x = 13 ∨ x = 10) (p : Bool) :
    (∀ c, ¬(c = 13 ∨ c = 10) → ∀ suf : List Nat,
      parseLine ⟨tmplBytes h m s ++ (pre ++ t :: (terms ++ c :: suf)), p⟩ =
        (some ((h * 60 + m) * 60 + s), ⟨c :: suf, false⟩)) ∧
    parseLine ⟨tmplBytes h m s ++ (pre ++ t :: terms), p⟩ =
      (some ((h * 60 + m) * 60 + s), ⟨[], true⟩) := by
  constructor
  · intro c hc suf
    rw [parseLine_tmpl h m s hh hm hs _ p]
    rw [skipToEol]
    simp only
    rw [skipToEolAux_through pre hpre t hterm]
    rw [skipEols]
    simp only
    rw [skipEolsAux_through terms hterms c hc]
  · rw [parseLine_tmpl h m s hh hm hs _ p]
    rw [skipToEol]
    simp only
    rw [skipToEolAux_through pre hpre t hterm]
    rw [skipEols]
    simp only
    rw [skipEolsAux_all terms hterms]

theorem scanner_advances_on_success_witness :
    parseLine ⟨bytes "[01:02:03] hi\n\r\nxyz", false⟩ = (some 3723, ⟨bytes "xyz", false⟩) ∧
    parseLine ⟨bytes "[01:02:03] hi\r\n", false⟩ = (some 3723, ⟨[], true⟩) := by
  have h1 := (scanner_advances_on_success 1 2 3 (by decide) (by decide) (by decide)
    (bytes " hi") (by decide) 10 (by decide) [13, 10] (by decide) false).1 120
    (by decide) (bytes "yz")
  have h2 := (scanner_advances_on_success 1 2 3 (by decide) (by decide) (by decide)
    (bytes " hi") (by decide) 13 (by decide) [10] (by decide) false).2
  have e1 : (⟨bytes "[01:02:03] hi\n\r\nxyz", false⟩ : Gz) =
      ⟨tmplBytes 1 2 3 ++ (bytes " hi" ++ 10 :: ([13, 10] ++ 120 :: bytes "yz")), false⟩ := by
    decide
  have e2 : (⟨bytes "[01:02:03] hi\r\n", false⟩ : Gz) =
      ⟨tmplBytes 1 2 3 ++ (bytes " hi" ++ 13 :: [10]), false⟩ := by decide
  constructor
  · rw [e1, h1]
    decide
  · rw [e2, h2]

/-- C10: `parseFile` terminates on every finite stream because each
`parseLine` call makes strict progress: it either consumes at least one
byte net of the single possible pushed-back character (strictly shorter
remaining buffer), or observes end-of-stream (the past-EOF flag that both
loop guards of `parseFile` test is set, and the buffer has not grown);
hence both scanning loops of `parseFile` reach end-of-stream, which is why
fuel `buf.length + 1` (resp. `+ 2`) in `findFirst`/`scanRest` is never
exhausted. -/
theorem scanner_progress (g : Gz) (r : Option Nat) (g' : Gz)
    (h : parseLine g = (r, g')) :
    g'.buf.length < g.buf.length ∨
    (g'.past = true ∧ g'.buf.length ≤ g.buf.length) :=
  parseLine_progress_eq g r g' h

theorem scanner_progress_witness :
    ((⟨[], false⟩ : Gz).buf.length < (⟨bytes "x", false⟩ : Gz).buf.length ∨
      ((⟨[], false⟩ : Gz).past = true ∧
        (⟨[], false⟩ : Gz).buf.length ≤ (⟨bytes "x", false⟩ : Gz).buf.length)) :=
  scanner_progress ⟨bytes "x", false⟩ none ⟨[], false⟩ (by decide)

/-- C7: the claim that `parseFile` closes its stream on every exit path is
violated by the code: the FormatFailure exit at line 74 (`return 2` inside
the first scanning loop) is taken without reaching `gzclose` at line 79,
so a file with no valid timestamp line — for example the empty file —
leaks the opened stream. -/
theorem parseFile_leak_on_format_failure :
    (parseFile (some ⟨[], false⟩)).ret = 2 ∧
    (parseFile (some ⟨[], false⟩)).closed = false ∧
    (parseFile (some ⟨bytes "no timestamps here\n", false⟩)).ret = 2 ∧
    (parseFile (some ⟨bytes "no timestamps here\n", false⟩)).closed = false := by
  decide

lemma parseLine_some_specMatch (g : Gz) (t : Nat) (g' : Gz)
    (h : parseLine g = (some t, g')) : specMatch tag g.buf = true := by
  have hiff := matchTag_isSome_eq_specMatch tag 0 0 0 g
  unfold parseLine at h
  rcases hmt : matchTag tag 0 0 0 g with ⟨r0, g0⟩
  rw [hmt] at h hiff
  cases r0 with
  | none => simp at h
  | some v => simpa using hiff.symm

lemma findFirstGo_none_of_noMatch (fuel : Nat) : ∀ g : Gz,
    (∀ s, s <:+ g.buf → specMatch tag s = false) → findFirstGo fuel g = none := by
  induction fuel with
  | zero => intro g _; rfl
  | succ n ih =>
    intro g hfree
    simp only [findFirstGo]
    rcases hq : parseLine g with ⟨r, g'⟩
    cases r with
    | some t =>
      have := parseLine_some_specMatch g t g' hq
      rw [hfree g.buf List.suffix_rfl] at this
      cases this
    | none =>
      simp only
      by_cases hp : gzeof g'
      · simp [hp]
      · simp only [hp, if_false]
        have hsfx : g'.buf <:+ g.buf := by
          have := parseLine_suffix g
          rw [hq] at this
          simpa using this
        exact ih g' fun s hs => hfree s (hs.trans hsfx)

/-- C8: a file that opens successfully but in which the `[HH:MM:SS]`
template matches at no position of the stream — in particular the empty
file, and any file none of whose lines carries a valid timestamp — makes
`parseFile` return 2 (FormatFailure), distinct from the 1 (SystemFailure)
returned when the file cannot be opened; the run is a total function, so
no crash. -/
theorem parseFile_format_failure (g : Gz)
    (h : ∀ s ∈ g.buf.tails, specMatch tag s = false) :
    (parseFile (some g)).ret = 2 ∧ (parseFile none).ret = 1 ∧ (2 : Int) ≠ 1 := by
  have hn : findFirst g = none := by
    rw [findFirst]
    exact findFirstGo_none_of_noMatch _ g fun s hs => h s ((List.mem_tails s g.buf).mpr hs)
  refine ⟨?_, by decide, by decide⟩
  simp [parseFile, hn]

theorem parseFile_format_failure_witness :
    (parseFile (some ⟨[], false⟩)).ret = 2 ∧
    (parseFile (some ⟨bytes "hello\nworld\n", false⟩)).ret = 2 := by
  have h1 := parseFile_format_failure ⟨[], false⟩ (by decide)
  have h2 := parseFile_format_failure ⟨bytes "hello\nworld\n", false⟩ (by decide)
  exact ⟨h1.1, h2.1⟩

example : isLogGzFile (bytes "2023-10-05-1.log.gz") = true := by decide

example : isLogGzFile (bytes "2023-10-05-1.log.gz.old") = false := by decide

lemma matchFmt_nil_iff (name : List Nat) : matchFmt [] name = true ↔ name = [] := by
  cases name <;> simp [matchFmt]

lemma matchFmt_cons_dig (fs name : List Nat) :
    matchFmt (110 :: fs) name = true ↔
      ∃ c cs, name = c :: cs ∧ isdigit c = true ∧ matchFmt fs cs = true := by
  cases name with
  | nil => simp [matchFmt, isdigit]
  | cons c cs =>
    simp only [matchFmt, if_pos rfl, List.headD_cons, List.tail_cons, List.cons.injEq]
    by_cases hc : isdigit c
    · rw [if_pos hc]
      constructor
      · intro h
        exact ⟨c, cs, ⟨rfl, rfl⟩, hc, h⟩
      · rintro ⟨c2, cs2, ⟨hce, hcse⟩, hd, h⟩
        subst hce
        subst hcse
        exact h
    · simp [hc]

lemma matchFmt_cons_lit (f : Nat) (hf : f ≠ 110) (hf0 : 0 ≠ f) (fs name : List Nat) :
    matchFmt (f :: fs) name = true ↔
      ∃ cs, name = f :: cs ∧ matchFmt fs cs = true := by
  cases name with
  | nil => simp [matchFmt, if_neg hf, if_neg hf0]
  | cons c cs =>
    simp only [matchFmt, if_neg hf, List.headD_cons, List.tail_cons, List.cons.injEq]
    by_cases hc : c = f
    · subst hc
      simp
    · simp [hc, fun h : f = c => hc h.symm]

/-- C9: `isLogGzFile` accepts a filename exactly when it is four decimal
digits, `'-'`, two digits, `'-'`, two digits, `'-'`, one digit, followed by
the literal `".log.gz"` with nothing after it; in particular it accepts
`2023-10-05-1.log.gz` and rejects `2023-10-05-1.log`, `23-10-05-1.log.gz`
and `2023-10-05-a.log.gz`. -/
theorem fileClassifier_template :
    (∀ name : List Nat,
      isLogGzFile name = true ↔
        ∃ a b c d e f u v w : Nat,
          isdigit a = true ∧ isdigit b = true ∧ isdigit c = true ∧ isdigit d = true ∧
          isdigit e = true ∧ isdigit f = true ∧ isdigit u = true ∧ isdigit v = true ∧
          isdigit w = true ∧
          name = a :: b :: c :: d :: 45 :: e :: f :: 45 :: u :: v :: 45 :: w ::
            bytes ".log.gz") ∧
    isLogGzFile (bytes "2023-10-05-1.log.gz") = true ∧
    isLogGzFile (bytes "2023-10-05-1.log") = false ∧
    isLogGzFile (bytes "23-10-05-1.log.gz") = false ∧
    isLogGzFile (bytes "2023-10-05-a.log.gz") = false := by
  refine ⟨?_, by decide, by decide, by decide, by decide⟩
  intro name
  have hfmt : fmt = [110, 110, 110, 110, 45, 110, 110, 45, 110, 110, 45, 110,
      46, 108, 111, 103, 46, 103, 122] := by decide
  unfold isLogGzFile
  rw [hfmt]
  constructor
  · intro h
    rw [matchFmt_cons_dig] at h
    obtain ⟨a, n1, hn1, ha, h⟩ := h
    rw [matchFmt_cons_dig] at h
    obtain ⟨b, n2, hn2, hb, h⟩ := h
    rw [matchFmt_cons_dig] at h
    obtain ⟨c, n3, hn3, hc, h⟩ := h
    rw [matchFmt_cons_dig] at h
    obtain ⟨d, n4, hn4, hd, h⟩ := h
    rw [matchFmt_cons_lit 45 (by decide) (by decide)] at h
    obtain ⟨n5, hn5, h⟩ := h
    rw [matchFmt_cons_dig] at h
    obtain ⟨e, n6, hn6, he, h⟩ := h
    rw [matchFmt_cons_dig] at h
    obtain ⟨f, n7, hn7, hf, h⟩ := h
    rw [matchFmt_cons_lit 45 (by decide) (by decide)] at h
    obtain ⟨n8, hn8, h⟩ := h
    rw [matchFmt_cons_dig] at h
    obtain ⟨u, n9, hn9, hu, h⟩ := h
    rw [matchFmt_cons_dig] at h
    obtain ⟨v, n10, hn10, hv, h⟩ := h
    rw [matchFmt_cons_lit 45 (by decide) (by decide)] at h
    obtain ⟨n11, hn11, h⟩ := h
    rw [matchFmt_cons_dig] at h
    obtain ⟨w, n12, hn12, hw, h⟩ := h
    rw [matchFmt_cons_lit 46 (by decide) (by decide)] at h
    obtain ⟨n13, hn13, h⟩ := h
    rw [matchFmt_cons_lit 108 (by decide) (by decide)] at h
    obtain ⟨n14, hn14, h⟩ := h
    rw [matchFmt_cons_lit 111 (by decide) (by decide)] at h
    obtain ⟨n15, hn15, h⟩ := h
    rw [matchFmt_cons_lit 103 (by decide) (by decide)] at h
    obtain ⟨n16, hn16, h⟩ := h
    rw [matchFmt_cons_lit 46 (by decide) (by decide)] at h
    obtain ⟨n17, hn17, h⟩ := h
    rw [matchFmt_cons_lit 103 (by decide) (by decide)] at h
    obtain ⟨n18, hn18, h⟩ := h
    rw [matchFmt_cons_lit 122 (by decide) (by decide)] at h
    obtain ⟨n19, hn19, h⟩ := h
    rw [matchFmt_nil_iff] at h
    subst h hn19 hn18 hn17 hn16 hn15 hn14 hn13 hn12 hn11 hn10 hn9 hn8 hn7 hn6 hn5
      hn4 hn3 hn2 hn1
    exact ⟨a, b, c, d, e, f, u, v, w, ha, hb, hc, hd, he, hf, hu, hv, hw, rfl⟩
  · rintro ⟨a, b, c, d, e, f, u, v, w, ha, hb, hc, hd, he, hf, hu, hv, hw, hname⟩
    subst hname
    rw [matchFmt_cons_dig]
    refine ⟨a, _, rfl, ha, ?_⟩
    rw [matchFmt_cons_dig]
    refine ⟨b, _, rfl, hb, ?_⟩
    rw [matchFmt_cons_dig]
    refine ⟨c, _, rfl, hc, ?_⟩
    rw [matchFmt_cons_dig]
    refine ⟨d, _, rfl, hd, ?_⟩
    rw [matchFmt_cons_lit 45 (by decide) (by decide)]
    refine ⟨_, rfl, ?_⟩
    rw [matchFmt_cons_dig]
    refine ⟨e, _, rfl, he, ?_⟩
    rw [matchFmt_cons_dig]
    refine ⟨f, _, rfl, hf, ?_⟩
    rw [matchFmt_cons_lit 45 (by decide) (by decide)]
    refine ⟨_, rfl, ?_⟩
    rw [matchFmt_cons_dig]
    refine ⟨u, _, rfl, hu, ?_⟩
    rw [matchFmt_cons_dig]
    refine ⟨v, _, rfl, hv, ?_⟩
    rw [matchFmt_cons_lit 45 (by decide) (by decide)]
    refine ⟨_, rfl, ?_⟩
    rw [matchFmt_cons_dig]
    refine ⟨w, _, rfl, hw, ?_⟩
    decide

lemma dirFold (w : World) (entries : List (List Nat)) : ∀ s0 f0 : Int,
    entries.foldl (dirStep w) (s0, f0) =
      (s0 + ((entries.filter (parsedOk w)).map
          fun n => (parseFile (w.opn w.cwd n)).time).sum,
       f0 + ((entries.filter (parsedOk w)).length : Int)) := by
  induction entries with
  | nil => intro s0 f0; simp
  | cons n ns ih =>
    intro s0 f0
    simp only [List.foldl_cons, List.filter_cons]
    by_cases h1 : isLogGzFile n
    · by_cases h2 : (parseFile (w.opn w.cwd n)).ret = 0
      · have hok : parsedOk w n = true := by
          unfold parsedOk
          rw [h1, h2]
          rfl
        have hstep : dirStep w (s0, f0) n =
            (s0 + (parseFile (w.opn w.cwd n)).time, f0 + 1) := by
          unfold dirStep
          rw [h1]
          simp [h2]
        rw [hstep, ih, hok]
        simp only [if_true, List.map_cons, List.sum_cons, List.length_cons]
        rw [Prod.mk.injEq]
        constructor
        · omega
        · push_cast
          omega
      · have hok : parsedOk w n = false := by
          unfold parsedOk
          simp [h2]
        have hstep : dirStep w (s0, f0) n = (s0, f0) := by
          unfold dirStep
          rw [h1]
          simp [h2]
        rw [hstep, ih, hok]
        simp
    · have hok : parsedOk w n = false := by
        unfold parsedOk
        simp [h1]
      have hstep : dirStep w (s0, f0) n = (s0, f0) := by
        unfold dirStep
        simp [h1]
      rw [hstep, ih, hok]
      simp

/-- C5: for every directory that `parseDirectory` can enter (`chdir`
succeeds) and list (`opendir` succeeds), the returned count equals the
number of successfully parsed candidate files — the entries accepted by
`isLogGzFile` plus the fixed `latest.log` attempted unconditionally — and
the returned time equals the sum of their durations; files failing with
SystemFailure or FormatFailure are skipped without aborting and without
counting, and the count is never the failure sentinel -1, which is
reserved for a directory that cannot be entered or listed. -/
theorem directoryAggregator_counts (w : World) (p : List Nat)
    (origin : Option (List Nat)) (c : List (List Nat))
    (entries : List (List Nat)) (r : Int × Int × World)
    (hc : w.chd w.cwd p = some c) (hl : w.lst c = some entries)
    (hr : parseDirectory (some p) origin w = some r) :
    r.1 = ((entries.filter (parsedOk { w with cwd := c })).length : Int) +
      (if (parseFile (w.opn c (bytes "latest.log"))).ret = 0 then 1 else 0) ∧
    r.2.1 = ((entries.filter (parsedOk { w with cwd := c })).map
        fun n => (parseFile (w.opn c n)).time).sum +
      (if (parseFile (w.opn c (bytes "latest.log"))).ret = 0 then
        (parseFile (w.opn c (bytes "latest.log"))).time else 0) ∧
    0 ≤ r.1 := by
  unfold parseDirectory at hr
  dsimp only at hr
  rw [hc] at hr
  dsimp only at hr
  unfold parseDirectoryBody at hr
  dsimp only at hr
  rw [show ({ w with cwd := c } : World).lst ({ w with cwd := c } : World).cwd =
    some entries from hl] at hr
  dsimp only at hr
  rw [show entries.foldl (dirStep { w with cwd := c }) (0, 0) =
    ((0 : Int) + ((entries.filter (parsedOk { w with cwd := c })).map
        fun n => (parseFile (w.opn c n)).time).sum,
     (0 : Int) + ((entries.filter (parsedOk { w with cwd := c })).length : Int))
    from dirFold { w with cwd := c } entries 0 0] at hr
  simp only [zero_add] at hr
  set S := ((entries.filter (parsedOk { w with cwd := c })).map
    fun n => (parseFile (w.opn c n)).time).sum with hS
  set F := ((entries.filter (parsedOk { w with cwd := c })).length : Int) with hF
  have hF0 : 0 ≤ F := by
    rw [hF]
    positivity
  by_cases hlat : (parseFile (w.opn c (bytes "latest.log"))).ret = 0
  · rw [show parseFile (({ w with cwd := c } : World).opn
      ({ w with cwd := c } : World).cwd (bytes "latest.log")) =
      parseFile (w.opn c (bytes "latest.log")) from rfl] at hr
    simp only [hlat, if_true, if_pos] at hr ⊢
    cases origin with
    | none =>
      simp only [Option.some.injEq] at hr
      rw [← hr]
      refine ⟨rfl, rfl, by omega⟩
    | some o =>
      simp only at hr
      cases hcs : chdirS o { w with cwd := c } with
      | none => rw [hcs] at hr; cases hr
      | some w2 =>
        rw [hcs] at hr
        simp only [Option.some.injEq] at hr
        rw [← hr]
        refine ⟨rfl, rfl, by omega⟩
  · rw [show parseFile (({ w with cwd := c } : World).opn
      ({ w with cwd := c } : World).cwd (bytes "latest.log")) =
      parseFile (w.opn c (bytes "latest.log")) from rfl] at hr
    simp only [hlat, if_false] at hr ⊢
    cases origin with
    | none =>
      simp only [Option.some.injEq] at hr
      rw [← hr]
      refine ⟨by simp, by simp, by simpa using hF0⟩
    | some o =>
      simp only at hr
      cases hcs : chdirS o { w with cwd := c } with
      | none => rw [hcs] at hr; cases hr
      | some w2 =>
        rw [hcs] at hr
        simp only [Option.some.injEq] at hr
        rw [← hr]
        refine ⟨by simp, by simp, by simpa using hF0⟩

theorem directoryAggregator_counts_witness :
    ((parseDirectory (some (bytes "logs")) none mcWorld).map
      fun r => (r.1, r.2.1)) = some (3, 350) := by
  have hr : parseDirectory (some (bytes "logs")) none mcWorld =
      some (3, 350, { mcWorld with cwd := [bytes "mc", bytes "logs"] }) := by rfl
  have h := directoryAggregator_counts mcWorld (bytes "logs") none
    [bytes "mc", bytes "logs"] mcEntries
    (3, 350, { mcWorld with cwd := [bytes "mc", bytes "logs"] })
    (by decide) (by decide) hr
  rw [hr]
  rfl

/-- C1 is violated by the code: `parseDirectory` with a non-null origin
returns -1 on the `opendir` failure path (line 136) with the working
directory left inside the target, although `chdir` back to the origin
would succeed; and `autoParse` with a non-null origin returns -1 on the
zero-files-parsed branch (lines 257-259, and identically the SystemFailure
branch at lines 254-256) without the `chdir_s(origin)` that only the
success path (lines 265-266) performs. In both cases the final working
directory differs from the directory the origin denotes. -/
theorem workingDirectory_not_restored :
    (((parseDirectory (some (bytes "logs")) (some (bytes "/home")) leakWorldA).map
        fun r => (r.1, r.2.2.cwd)) = some (-1, [bytes "home", bytes "logs"]) ∧
      leakWorldA.chd [bytes "home", bytes "logs"] (bytes "/home") =
        some [bytes "home"] ∧
      [bytes "home", bytes "logs"] ≠ [bytes "home"]) ∧
    (((autoParse (some (bytes "d")) (some (bytes "/home")) leakWorldB).map
        fun r => (r.1, r.2.2.cwd)) = some (-1, [bytes "home", bytes "d"]) ∧
      leakWorldB.chd [bytes "home", bytes "d"] (bytes "/home") =
        some [bytes "home"] ∧
      [bytes "home", bytes "d"] ≠ [bytes "home"]) := by
  refine ⟨⟨?_, by decide, by decide⟩, ⟨?_, by decide, by decide⟩⟩
  · rfl
  · rfl
